import Mathlib

/-!
Verification of the video-creation timeline engine
(`src/video_creation/` of the repository) against its design document.

Python fragments are shallowly embedded: text is a `List Char`, Python
floats are modelled as exact rationals (or reals for the transcendental
easing curves), `int(...)` is truncation toward zero, and `str.split()`
is re-implemented structurally.  Every definition follows the source
file named in its doc comment.
-/

set_option maxHeartbeats 1000000

namespace VideoCreation

/-- Python `int(q)` on a rational: truncation toward zero. -/
def pyInt (q : ℚ) : ℤ := if q < 0 then ⌈q⌉ else ⌊q⌋

/-- Auxiliary recursion for Python `str.split()`: `acc` holds the
characters of the word currently being read, in reverse order. -/
def pySplitAux : List Char → List Char → List (List Char)
  | [], acc => if acc = [] then [] else [acc.reverse]
  | c :: cs, acc =>
    if c.isWhitespace then
      if acc = [] then pySplitAux cs [] else acc.reverse :: pySplitAux cs []
    else
      pySplitAux cs (c :: acc)

/-- Python `str.split()` with no argument: split on runs of whitespace,
dropping empty tokens. -/
def pySplit (t : List Char) : List (List Char) := pySplitAux t []

/-- Python `' '.join(words)`. -/
def joinWords : List (List Char) → List Char
  | [] => []
  | [w] => w
  | w :: ws => w ++ ' ' :: joinWords ws

/-! ## `src/utils/timing.py` -/

/-- `calculate_text_duration` from `src/utils/timing.py` (default
arguments `words_per_second=1.8`, `min_duration=4.0`,
`max_duration=10.0`).  Guard `not text or not text.strip()` is the
empty-or-all-whitespace test. -/
def calculate_text_duration (text : List Char) : ℚ :=
  if text = [] ∨ text.all (fun c => c.isWhitespace) then 4
  else
    let word_count : ℚ := ((pySplit text).length : ℚ)
    let reading_time := word_count / (9/5)
    let animation_buffer : ℚ := 3/2
    let comprehension_time := word_count * (2/5)
    let calculated_duration := reading_time + animation_buffer + comprehension_time
    max 4 (min calculated_duration 10)

/-- One overlay of a scene configuration: a text overlay carries its
text, any other overlay type (e.g. image) carries none. -/
inductive Overlay where
  | text (content : List Char)
  | image (path : List Char)
deriving DecidableEq

/-- The fields of `scene_data` that `calculate_scene_duration` reads:
the optional `'duration'` key and the `'overlays'` list (absent key
modelled as the empty list, as `scene_data.get('overlays', [])` yields). -/
structure SceneData where
  duration : Option ℚ
  overlays : List Overlay
deriving DecidableEq

/-- The overlay-scanning part of `calculate_scene_duration`: starting
from `base_duration = 4.5`, take the max with `calculate_text_duration`
of every text overlay, then add `1.0` iff the overlays list is truthy
(non-empty). -/
def scene_auto_duration (s : SceneData) : ℚ :=
  let base_duration : ℚ := 9/2
  let max_text_duration :=
    s.overlays.foldl
      (fun acc o =>
        match o with
        | Overlay.text t => max acc (calculate_text_duration t)
        | Overlay.image _ => acc)
      base_duration
  if s.overlays = [] then max_text_duration else max_text_duration + 1

/-- `calculate_scene_duration` from `src/utils/timing.py`:
`if 'duration' in scene_data and scene_data['duration'] > 0: return it`,
otherwise the overlay scan above. -/
def calculate_scene_duration (s : SceneData) : ℚ :=
  match s.duration with
  | some d => if 0 < d then d else scene_auto_duration s
  | none => scene_auto_duration s

/-- The text of a text overlay, if any. -/
def overlayText : Overlay → Option (List Char)
  | Overlay.text t => some t
  | Overlay.image _ => none

/-- Specification-side reading of the overlay scan: fold `max` over the
text overlays' durations from the right, starting at the 4.5 base. -/
def textDurationMax (os : List Overlay) : ℚ :=
  ((os.filterMap overlayText).map calculate_text_duration).foldr max (9/2)

/-! ### Lemmas about splitting -/

theorem pySplitAux_all_whitespace (l : List Char) (hl : ∀ c ∈ l, c.isWhitespace) :
    pySplitAux l [] = [] := by
  induction l with
  | nil => simp [pySplitAux]
  | cons c cs ih =>
    have hc : c.isWhitespace := hl c (by simp)
    simp only [pySplitAux, hc, if_true, if_pos rfl]
    exact ih (fun x hx => hl x (by simp [hx]))

theorem pySplit_of_all_whitespace (l : List Char) (hl : l.all (fun c => c.isWhitespace)) :
    pySplit l = [] := by
  apply pySplitAux_all_whitespace
  intro c hc
  exact List.all_eq_true.mp hl c hc

/-! ### C1 and C4 claim theorems -/

/-- **C1** For every text string the computed display duration equals
`word_count / 1.8 + 1.5 + word_count * 0.4` clamped to `[4, 10]`
(word count = whitespace-split token count); whitespace-only or empty
input yields exactly 4; the output lies in `[4, 10]`; and the function
is a pure function of its input. -/
theorem claim_C1 (text : List Char) :
    calculate_text_duration text
        = max 4 (min (((pySplit text).length : ℚ) / (9/5) + 3/2
              + ((pySplit text).length : ℚ) * (2/5)) 10)
      ∧ (text.all (fun c => c.isWhitespace) → calculate_text_duration text = 4)
      ∧ 4 ≤ calculate_text_duration text
      ∧ calculate_text_duration text ≤ 10
      ∧ (∀ t', t' = text → calculate_text_duration t' = calculate_text_duration text) := by
  have hmain : calculate_text_duration text
      = max 4 (min (((pySplit text).length : ℚ) / (9/5) + 3/2
            + ((pySplit text).length : ℚ) * (2/5)) 10) := by
    unfold calculate_text_duration
    split
    · rename_i h
      have hsplit : pySplit text = [] := by
        rcases h with h | h
        · subst h; rfl
        · exact pySplit_of_all_whitespace text h
      rw [hsplit]
      norm_num
    · rfl
  refine ⟨hmain, ?_, ?_, ?_, ?_⟩
  · intro hws
    unfold calculate_text_duration
    rw [if_pos (Or.inr hws)]
  · rw [hmain]; exact le_max_left _ _
  · rw [hmain]
    have h10 : min (((pySplit text).length : ℚ) / (9/5) + 3/2
        + ((pySplit text).length : ℚ) * (2/5)) 10 ≤ 10 := min_le_right _ _
    have : (4:ℚ) ≤ 10 := by norm_num
    exact max_le this h10
  · intro t' ht'; rw [ht']

/-- **C4, counterexample** A scene with no explicit duration and a single
*image* overlay (no text overlays at all) gets duration `5.5`, not the
`4.5` the claim demands for scenes without text overlays: the 1-second
comprehension buffer is added for *any* non-empty overlay list. -/
theorem claim_C4_cex :
    calculate_scene_duration ⟨none, [Overlay.image ['l','o','g','o']]⟩ = 11/2
      ∧ (11/2 : ℚ) ≠ 9/2 := by
  constructor
  · norm_num [calculate_scene_duration, scene_auto_duration, List.foldl]
  · norm_num

theorem foldr_max_shift (xs : List ℚ) (a b : ℚ) :
    xs.foldr max (max a b) = max b (xs.foldr max a) := by
  induction xs with
  | nil => simp [max_comm]
  | cons x xs ih =>
    simp only [List.foldr_cons, ih]
    rw [max_left_comm]

theorem scene_fold_eq (os : List Overlay) (a : ℚ) :
    os.foldl
        (fun acc o =>
          match o with
          | Overlay.text t => max acc (calculate_text_duration t)
          | Overlay.image _ => acc)
        a
      = ((os.filterMap overlayText).map calculate_text_duration).foldr max a := by
  induction os generalizing a with
  | nil => rfl
  | cons o os ih =>
    cases o with
    | text t =>
      simp only [List.foldl_cons, List.filterMap_cons, overlayText, List.map_cons,
        List.foldr_cons, ih]
      exact foldr_max_shift _ a (calculate_text_duration t)
    | image p =>
      simp only [List.foldl_cons, List.filterMap_cons, overlayText, ih]

/-- **C4, amended** If an explicit positive duration is set it is
returned unchanged; a non-positive explicit duration is ignored.
Otherwise the duration is `max(4.5, max over text overlays of
text_duration)`, plus a 1-second buffer exactly when the overlays list
is non-empty — the buffer applies to *any* overlay (text or image), and
the 4.5 base participates in the maximum even when text overlays exist. -/
theorem claim_C4_amended (s : SceneData) :
    (∀ d, s.duration = some d → 0 < d → calculate_scene_duration s = d)
      ∧ (∀ d, s.duration = some d → ¬ 0 < d →
          calculate_scene_duration s
            = textDurationMax s.overlays + (if s.overlays = [] then 0 else 1))
      ∧ (s.duration = none →
          calculate_scene_duration s
            = textDurationMax s.overlays + (if s.overlays = [] then 0 else 1)) := by
  have hauto : scene_auto_duration s
      = textDurationMax s.overlays + (if s.overlays = [] then 0 else 1) := by
    unfold scene_auto_duration textDurationMax
    dsimp only
    rw [scene_fold_eq]
    split <;> ring
  refine ⟨?_, ?_, ?_⟩
  · intro d hd hpos
    unfold calculate_scene_duration
    rw [hd]
    simp [hpos]
  · intro d hd hneg
    unfold calculate_scene_duration
    rw [hd]
    simp [hneg, hauto]
  · intro hd
    unfold calculate_scene_duration
    rw [hd]
    exact hauto

/-! ## `src/utils/easing.py`

The easing curves are Python float functions; they are embedded as real
functions, with `pow(x, n)` for literal integer `n` rendered as `x ^ n`
and `pow(2, -10 * t)` as the real power `2 ^ (-10 * t)`. -/

/-- `linear` from `src/utils/easing.py`. -/
def linear (t : ℝ) : ℝ := t

/-- `ease_in_out_cubic` from `src/utils/easing.py`. -/
noncomputable def ease_in_out_cubic (t : ℝ) : ℝ :=
  if t < 1/2 then 4 * t * t * t else 1 - (-2 * t + 2) ^ 3 / 2

/-- `ease_in_out_quad` from `src/utils/easing.py`. -/
noncomputable def ease_in_out_quad (t : ℝ) : ℝ :=
  if t < 1/2 then 2 * t * t else 1 - (-2 * t + 2) ^ 2 / 2

/-- `ease_out_cubic` from `src/utils/easing.py`. -/
noncomputable def ease_out_cubic (t : ℝ) : ℝ := 1 - (1 - t) ^ 3

/-- `ease_in_cubic` from `src/utils/easing.py`. -/
noncomputable def ease_in_cubic (t : ℝ) : ℝ := t * t * t

/-- `ease_out_expo` from `src/utils/easing.py`:
`1 if t == 1 else 1 - pow(2, -10 * t)`. -/
noncomputable def ease_out_expo (t : ℝ) : ℝ :=
  if t = 1 then 1 else 1 - (2:ℝ) ^ (-10 * t)

/-- `ease_in_out_sine` from `src/utils/easing.py`. -/
noncomputable def ease_in_out_sine (t : ℝ) : ℝ :=
  -((Real.cos (Real.pi * t) - 1) / 2)

/-- `ease_out_back` from `src/utils/easing.py`, with the source's
constant `c1 = 1.70158`, `c3 = c1 + 1`. -/
noncomputable def ease_out_back (t : ℝ) : ℝ :=
  1 + ((1.70158 : ℝ) + 1) * (t - 1) ^ 3 + (1.70158 : ℝ) * (t - 1) ^ 2

/-- Names for the eight easing functions of `src/utils/easing.py`. -/
inductive EasingId where
  | linear | inOutCubic | inOutQuad | outCubic | inCubic | outExpo | inOutSine | outBack
deriving DecidableEq

/-- The `EASING_PRESETS` dict of `src/utils/easing.py`, as an
association list. -/
def EASING_PRESETS : List (String × EasingId) :=
  [("motion", EasingId.inOutCubic),
   ("zoom", EasingId.inOutSine),
   ("text", EasingId.outCubic),
   ("transition", EasingId.inOutQuad),
   ("dynamic", EasingId.outBack)]

/-- `get_easing` from `src/utils/easing.py`:
`EASING_PRESETS.get(name, ease_in_out_cubic)`. -/
def get_easing (name : String) : EasingId :=
  (EASING_PRESETS.lookup name).getD EasingId.inOutCubic

/-- The log lines emitted by `get_easing`: its body is the single
expression `EASING_PRESETS.get(name, ease_in_out_cubic)`, which performs
no logging, so the emitted warning list is empty for every input. -/
def easing_warnings (_name : String) : List String := []

/-- The real function denoted by each easing name. -/
noncomputable def easingFun : EasingId → ℝ → ℝ
  | EasingId.linear => linear
  | EasingId.inOutCubic => ease_in_out_cubic
  | EasingId.inOutQuad => ease_in_out_quad
  | EasingId.outCubic => ease_out_cubic
  | EasingId.inCubic => ease_in_cubic
  | EasingId.outExpo => ease_out_expo
  | EasingId.inOutSine => ease_in_out_sine
  | EasingId.outBack => ease_out_back

/-! ### Lemmas about the easing curves -/

theorem cube_mono {a b : ℝ} (h : a ≤ b) : a ^ 3 ≤ b ^ 3 := by
  nlinarith [sq_nonneg (a + b), sq_nonneg (a - b), sq_nonneg a, sq_nonneg b]

theorem linear_mono : ∀ a b : ℝ, 0 ≤ a → a ≤ b → b ≤ 1 → linear a ≤ linear b := by
  intro a b _ hab _; exact hab

theorem linear_mem : ∀ t : ℝ, 0 ≤ t → t ≤ 1 → 0 ≤ linear t ∧ linear t ≤ 1 := by
  intro t h0 h1; exact ⟨h0, h1⟩

theorem ease_in_cubic_mono :
    ∀ a b : ℝ, 0 ≤ a → a ≤ b → b ≤ 1 → ease_in_cubic a ≤ ease_in_cubic b := by
  intro a b ha hab _
  have hb : 0 ≤ b := ha.trans hab
  unfold ease_in_cubic
  nlinarith [sq_nonneg (a + b), sq_nonneg (a - b), mul_nonneg ha hb]

theorem ease_in_cubic_mem :
    ∀ t : ℝ, 0 ≤ t → t ≤ 1 → 0 ≤ ease_in_cubic t ∧ ease_in_cubic t ≤ 1 := by
  intro t h0 h1
  unfold ease_in_cubic
  constructor
  · positivity
  · nlinarith [mul_nonneg h0 h0]

theorem ease_out_cubic_mono :
    ∀ a b : ℝ, 0 ≤ a → a ≤ b → b ≤ 1 → ease_out_cubic a ≤ ease_out_cubic b := by
  intro a b _ hab _
  unfold ease_out_cubic
  have := cube_mono (show 1 - b ≤ 1 - a by linarith)
  linarith

theorem ease_out_cubic_mem :
    ∀ t : ℝ, 0 ≤ t → t ≤ 1 → 0 ≤ ease_out_cubic t ∧ ease_out_cubic t ≤ 1 := by
  intro t h0 h1
  unfold ease_out_cubic
  have hu0 : (0:ℝ) ≤ 1 - t := by linarith
  have h3 : (0:ℝ) ≤ (1 - t) ^ 3 := by positivity
  have h4 : (1 - t) ^ 3 ≤ 1 := by
    have := cube_mono (show (1:ℝ) - t ≤ 1 by linarith)
    simpa using this
  constructor <;> linarith

theorem ease_in_out_cubic_mono :
    ∀ a b : ℝ, 0 ≤ a → a ≤ b → b ≤ 1 → ease_in_out_cubic a ≤ ease_in_out_cubic b := by
  intro a b ha hab hb1
  unfold ease_in_out_cubic
  split_ifs with h1 h2 h2
  · nlinarith [sq_nonneg (a + b), sq_nonneg (a - b), mul_nonneg ha (ha.trans hab)]
  · have hle : 4 * a * a * a ≤ 1/2 := by nlinarith [mul_nonneg ha ha]
    have hcube : (-2 * b + 2) ^ 3 ≤ 1 := by
      have := cube_mono (show -2 * b + 2 ≤ 1 by linarith)
      simpa using this
    linarith
  · exact absurd (lt_of_le_of_lt hab h2) h1
  · have := cube_mono (show -2 * b + 2 ≤ -2 * a + 2 by linarith)
    linarith

theorem ease_in_out_cubic_mem :
    ∀ t : ℝ, 0 ≤ t → t ≤ 1 → 0 ≤ ease_in_out_cubic t ∧ ease_in_out_cubic t ≤ 1 := by
  intro t h0 h1
  unfold ease_in_out_cubic
  split_ifs with h
  · constructor
    · positivity
    · nlinarith [mul_nonneg h0 h0]
  · have hu0 : (0:ℝ) ≤ -2 * t + 2 := by linarith
    have h3 : (0:ℝ) ≤ (-2 * t + 2) ^ 3 := by positivity
    have h4 : (-2 * t + 2) ^ 3 ≤ 1 := by
      have := cube_mono (show -2 * t + 2 ≤ 1 by linarith)
      simpa using this
    constructor <;> linarith

theorem ease_in_out_quad_mono :
    ∀ a b : ℝ, 0 ≤ a → a ≤ b → b ≤ 1 → ease_in_out_quad a ≤ ease_in_out_quad b := by
  intro a b ha hab hb1
  unfold ease_in_out_quad
  split_ifs with h1 h2 h2
  · nlinarith
  · have hle : 2 * a * a ≤ 1/2 := by nlinarith
    have hsq : (-2 * b + 2) ^ 2 ≤ 1 := by nlinarith
    linarith
  · exact absurd (lt_of_le_of_lt hab h2) h1
  · nlinarith

theorem ease_in_out_quad_mem :
    ∀ t : ℝ, 0 ≤ t → t ≤ 1 → 0 ≤ ease_in_out_quad t ∧ ease_in_out_quad t ≤ 1 := by
  intro t h0 h1
  unfold ease_in_out_quad
  split_ifs with h
  · constructor
    · positivity
    · nlinarith
  · constructor <;> nlinarith [sq_nonneg (-2 * t + 2)]

theorem ease_out_expo_mem :
    ∀ t : ℝ, 0 ≤ t → t ≤ 1 → 0 ≤ ease_out_expo t ∧ ease_out_expo t ≤ 1 := by
  intro t h0 _
  unfold ease_out_expo
  split_ifs with h
  · norm_num
  · have hpos : (0:ℝ) < (2:ℝ) ^ (-10 * t) :=
      Real.rpow_pos_of_pos (by norm_num) _
    have hle : (2:ℝ) ^ (-10 * t) ≤ 1 :=
      Real.rpow_le_one_of_one_le_of_nonpos (by norm_num) (by linarith)
    constructor <;> linarith

theorem ease_out_expo_mono :
    ∀ a b : ℝ, 0 ≤ a → a ≤ b → b ≤ 1 → ease_out_expo a ≤ ease_out_expo b := by
  intro a b ha hab hb1
  by_cases hb : b = 1
  · subst hb
    have h1 : ease_out_expo 1 = 1 := by unfold ease_out_expo; rw [if_pos rfl]
    rw [h1]
    exact (ease_out_expo_mem a ha hab).2
  · have ha1 : a ≠ 1 := fun h => hb (le_antisymm hb1 (h ▸ hab))
    unfold ease_out_expo
    rw [if_neg ha1, if_neg hb]
    have := Real.rpow_le_rpow_of_exponent_le
      (show (1:ℝ) ≤ 2 by norm_num) (show -10 * b ≤ -10 * a by linarith)
    linarith

theorem ease_in_out_sine_mem :
    ∀ t : ℝ, 0 ≤ t → t ≤ 1 → 0 ≤ ease_in_out_sine t ∧ ease_in_out_sine t ≤ 1 := by
  intro t _ _
  unfold ease_in_out_sine
  have h1 := Real.neg_one_le_cos (Real.pi * t)
  have h2 := Real.cos_le_one (Real.pi * t)
  constructor <;> linarith

theorem ease_in_out_sine_mono :
    ∀ a b : ℝ, 0 ≤ a → a ≤ b → b ≤ 1 → ease_in_out_sine a ≤ ease_in_out_sine b := by
  intro a b ha hab hb1
  unfold ease_in_out_sine
  have hcos : Real.cos (Real.pi * b) ≤ Real.cos (Real.pi * a) := by
    apply Real.cos_le_cos_of_nonneg_of_le_pi
    · exact mul_nonneg Real.pi_pos.le ha
    · nlinarith [Real.pi_pos]
    · exact mul_le_mul_of_nonneg_left hab Real.pi_pos.le
  linarith

theorem ease_out_back_zero : ease_out_back 0 = 0 := by
  unfold ease_out_back; norm_num

theorem ease_out_back_one : ease_out_back 1 = 1 := by
  unfold ease_out_back; norm_num

theorem ease_out_back_overshoot : 1 < ease_out_back (3/5) := by
  unfold ease_out_back; norm_num

theorem easingFun_zero_one :
    ∀ e : EasingId, easingFun e 0 = 0 ∧ easingFun e 1 = 1 := by
  intro e
  cases e with
  | linear => exact ⟨rfl, rfl⟩
  | inOutCubic =>
    constructor
    · simp [easingFun, ease_in_out_cubic]
    · rw [show easingFun EasingId.inOutCubic = ease_in_out_cubic from rfl]
      unfold ease_in_out_cubic
      norm_num
  | inOutQuad =>
    constructor
    · simp [easingFun, ease_in_out_quad]
    · rw [show easingFun EasingId.inOutQuad = ease_in_out_quad from rfl]
      unfold ease_in_out_quad
      norm_num
  | outCubic =>
    constructor <;> simp [easingFun, ease_out_cubic]
  | inCubic =>
    constructor <;> simp [easingFun, ease_in_cubic]
  | outExpo =>
    constructor
    · rw [show easingFun EasingId.outExpo = ease_out_expo from rfl]
      unfold ease_out_expo
      rw [if_neg (by norm_num : (0:ℝ) ≠ 1)]
      norm_num [Real.rpow_zero]
    · simp [easingFun, ease_out_expo]
  | inOutSine =>
    constructor
    · simp [easingFun, ease_in_out_sine]
    · rw [show easingFun EasingId.inOutSine = ease_in_out_sine from rfl]
      unfold ease_in_out_sine
      rw [mul_one, Real.cos_pi]
      norm_num
  | outBack =>
    exact ⟨ease_out_back_zero, ease_out_back_one⟩

theorem lookup_eq_none_of_not_mem {β : Type} (name : String)
    (l : List (String × β)) (h : ∀ p ∈ l, name ≠ p.1) :
    l.lookup name = none := by
  induction l with
  | nil => rfl
  | cons p ps ih =>
    obtain ⟨k, v⟩ := p
    have hk : name ≠ k := h (k, v) (by simp)
    have hbeq : (name == k) = false := beq_eq_false_iff_ne.mpr hk
    simp only [List.lookup, hbeq]
    exact ih (fun q hq => h q (by simp [hq]))

/-- **C5, counterexample** Looking up an unknown preset name does fall
back to ease-in-out-cubic, but `get_easing` emits no log output at all:
no warning is logged, refuting the claim's "and logs a warning". -/
theorem claim_C5_cex :
    get_easing "wiggle" = EasingId.inOutCubic ∧ easing_warnings "wiggle" = [] := by
  exact ⟨rfl, rfl⟩

/-- **C5, amended** Every easing function satisfies `f 0 = 0` and
`f 1 = 1`; every one except ease_out_back maps `[0,1]` monotonically into
`[0,1]`; ease_out_back exceeds 1 inside `[0,1]`; and looking up a name
that is not a preset key returns ease-in-out-cubic silently — no warning
is logged — and never fails. -/
theorem claim_C5_amended :
    (∀ e : EasingId, easingFun e 0 = 0 ∧ easingFun e 1 = 1)
      ∧ (∀ e : EasingId, e ≠ EasingId.outBack →
          MonotoneOn (easingFun e) (Set.Icc (0:ℝ) 1)
            ∧ ∀ t ∈ Set.Icc (0:ℝ) 1, easingFun e t ∈ Set.Icc (0:ℝ) 1)
      ∧ (∃ t ∈ Set.Icc (0:ℝ) 1, 1 < easingFun EasingId.outBack t)
      ∧ (∀ name, (∀ p ∈ EASING_PRESETS, name ≠ p.1) →
          get_easing name = EasingId.inOutCubic ∧ easing_warnings name = []) := by
  refine ⟨easingFun_zero_one, ?_, ?_, ?_⟩
  · intro e he
    have build : ∀ (f : ℝ → ℝ),
        (∀ a b : ℝ, 0 ≤ a → a ≤ b → b ≤ 1 → f a ≤ f b) →
        (∀ t : ℝ, 0 ≤ t → t ≤ 1 → 0 ≤ f t ∧ f t ≤ 1) →
        MonotoneOn f (Set.Icc (0:ℝ) 1)
          ∧ ∀ t ∈ Set.Icc (0:ℝ) 1, f t ∈ Set.Icc (0:ℝ) 1 := by
      intro f hmono hmem
      constructor
      · intro a ha b hb hab
        exact hmono a b ha.1 hab hb.2
      · intro t ht
        exact ⟨(hmem t ht.1 ht.2).1, (hmem t ht.1 ht.2).2⟩
    cases e with
    | linear => exact build linear linear_mono linear_mem
    | inOutCubic => exact build ease_in_out_cubic ease_in_out_cubic_mono ease_in_out_cubic_mem
    | inOutQuad => exact build ease_in_out_quad ease_in_out_quad_mono ease_in_out_quad_mem
    | outCubic => exact build ease_out_cubic ease_out_cubic_mono ease_out_cubic_mem
    | inCubic => exact build ease_in_cubic ease_in_cubic_mono ease_in_cubic_mem
    | outExpo => exact build ease_out_expo ease_out_expo_mono ease_out_expo_mem
    | inOutSine => exact build ease_in_out_sine ease_in_out_sine_mono ease_in_out_sine_mem
    | outBack => exact absurd rfl he
  · exact ⟨3/5, by constructor <;> norm_num, ease_out_back_overshoot⟩
  · intro name h
    refine ⟨?_, rfl⟩
    unfold get_easing
    rw [lookup_eq_none_of_not_mem name EASING_PRESETS h]
    rfl

/-! ## Overlay position parsing
(`TextAnimator._parse_position` in `src/effects/text_animator_v2.py`
and `parse_position` in `src/utils/helpers.py`) -/

/-- One axis entry of a `[x, y]` position: a Python int, a Python float,
a percent string (by its numeric value), or the string `'center'`. -/
inductive Coord where
  | int (n : ℤ)
  | float (q : ℚ)
  | pct (q : ℚ)
  | str_center
deriving DecidableEq

/-- A position config value. -/
inductive PosSpec where
  | center
  | top
  | bottom
  | pair (x y : Coord)
  | other
deriving DecidableEq

/-- The `width`, `height`, `fps` state of a `TextAnimator`. -/
structure TextAnimator where
  width : ℕ
  height : ℕ
  fps : ℕ
deriving DecidableEq

/-- One axis of `TextAnimator._parse_position`: `'center'` → `dim // 2`;
float `≤ 1.0` → `int(dim * x)`; int → unchanged; anything else
(float `> 1.0`, percent strings) → `dim // 2`. -/
def animParseCoord (dim : ℕ) : Coord → ℤ
  | Coord.str_center => ((dim / 2 : ℕ) : ℤ)
  | Coord.float q => if q ≤ 1 then pyInt (dim * q) else ((dim / 2 : ℕ) : ℤ)
  | Coord.int n => n
  | Coord.pct _ => ((dim / 2 : ℕ) : ℤ)

/-- `TextAnimator._parse_position` from `src/effects/text_animator_v2.py`. -/
def TextAnimator.parsePosition (ta : TextAnimator) : PosSpec → ℤ × ℤ
  | PosSpec.center => (((ta.width / 2 : ℕ) : ℤ), ((ta.height / 2 : ℕ) : ℤ))
  | PosSpec.top => (((ta.width / 2 : ℕ) : ℤ), pyInt (ta.height * (15/100)))
  | PosSpec.bottom => (((ta.width / 2 : ℕ) : ℤ), pyInt (ta.height * (85/100)))
  | PosSpec.pair x y => (animParseCoord ta.width x, animParseCoord ta.height y)
  | PosSpec.other => (((ta.width / 2 : ℕ) : ℤ), ((ta.height / 2 : ℕ) : ℤ))

/-- One axis of helpers `parse_position`, before the final `int(...)`:
percent strings scale by `dim/100`; floats `≤ 1.0` scale by `dim`
(floats `> 1.0` pass through); `'center'` → `dim // 2`; ints pass
through. -/
def helpersCoord (dim : ℕ) : Coord → ℚ
  | Coord.pct q => dim * q / 100
  | Coord.float q => if q ≤ 1 then dim * q else q
  | Coord.str_center => ((dim / 2 : ℕ) : ℚ)
  | Coord.int n => (n : ℚ)

/-- `parse_position` from `src/utils/helpers.py`.  The list branch ends
in `(int(x), int(y))`; the named branches return mixed int/float pairs,
modelled as exact rationals. -/
def parse_position (frameW frameH : ℕ) : PosSpec → ℚ × ℚ
  | PosSpec.center => (((frameW / 2 : ℕ) : ℚ), ((frameH / 2 : ℕ) : ℚ))
  | PosSpec.top => (((frameW / 2 : ℕ) : ℚ), frameH * (15/100))
  | PosSpec.bottom => (((frameW / 2 : ℕ) : ℚ), frameH * (85/100))
  | PosSpec.pair x y =>
      ((pyInt (helpersCoord frameW x) : ℚ), (pyInt (helpersCoord frameH y) : ℚ))
  | PosSpec.other => (((frameW / 2 : ℕ) : ℚ), ((frameH / 2 : ℕ) : ℚ))

theorem pyInt_natCast (n : ℕ) : pyInt (n : ℚ) = n := by
  unfold pyInt
  rw [if_neg (not_lt.mpr (by positivity : (0:ℚ) ≤ (n : ℚ)))]
  exact Int.floor_natCast n

theorem pyInt_intCast (n : ℤ) : pyInt (n : ℚ) = n := by
  unfold pyInt
  split
  · exact Int.ceil_intCast n
  · exact Int.floor_intCast n

theorem pyInt_one : pyInt 1 = 1 := by
  unfold pyInt; norm_num

/-- **C8** In both position parsers a float coordinate `≤ 1.0`
(including `1.0` itself and negative floats) resolves to
`int(dimension * value)`, while an int coordinate is taken as an
absolute pixel unchanged; hence the int `1` resolves to pixel `1` while
the float `1.0` resolves to the full frame dimension, and the two
differ whenever the dimension exceeds `1`. -/
theorem claim_C8 (w h : ℕ) (q : ℚ) (n : ℤ) (hq : q ≤ 1) (hw : 1 < w) :
    TextAnimator.parsePosition ⟨w, h, 30⟩ (PosSpec.pair (Coord.float q) (Coord.int n))
        = (pyInt (w * q), n)
      ∧ parse_position w h (PosSpec.pair (Coord.float q) (Coord.int n))
        = ((pyInt (w * q) : ℚ), (n : ℚ))
      ∧ (TextAnimator.parsePosition ⟨w, h, 30⟩
          (PosSpec.pair (Coord.int 1) (Coord.int n))).1 = 1
      ∧ (TextAnimator.parsePosition ⟨w, h, 30⟩
          (PosSpec.pair (Coord.float 1) (Coord.int n))).1 = w
      ∧ (parse_position w h (PosSpec.pair (Coord.int 1) (Coord.int n))).1 = 1
      ∧ (parse_position w h (PosSpec.pair (Coord.float 1) (Coord.int n))).1 = w
      ∧ (1 : ℤ) ≠ (w : ℤ) := by
  refine ⟨?_, ?_, rfl, ?_, ?_, ?_, ?_⟩
  · simp [TextAnimator.parsePosition, animParseCoord, hq]
  · simp [parse_position, helpersCoord, hq, pyInt_intCast]
  · simp [TextAnimator.parsePosition, animParseCoord, pyInt_natCast]
  · simp [parse_position, helpersCoord, pyInt_intCast, pyInt_one]
  · simp [parse_position, helpersCoord, pyInt_natCast]
  · intro hcontra
    have : (1 : ℕ) = w := by exact_mod_cast hcontra
    omega

/-- **C8, witness** instantiation at frame width 1184, height 864, the
negative float `-1/2` and the int `7`. -/
theorem claim_C8_witness :
    TextAnimator.parsePosition ⟨1184, 864, 30⟩
          (PosSpec.pair (Coord.float (-1/2)) (Coord.int 7))
        = (pyInt (1184 * (-1/2)), 7)
      ∧ parse_position 1184 864 (PosSpec.pair (Coord.float (-1/2)) (Coord.int 7))
        = ((pyInt (1184 * (-1/2)) : ℚ), ((7 : ℤ) : ℚ))
      ∧ (TextAnimator.parsePosition ⟨1184, 864, 30⟩
          (PosSpec.pair (Coord.int 1) (Coord.int 7))).1 = 1
      ∧ (TextAnimator.parsePosition ⟨1184, 864, 30⟩
          (PosSpec.pair (Coord.float 1) (Coord.int 7))).1 = 1184
      ∧ (parse_position 1184 864 (PosSpec.pair (Coord.int 1) (Coord.int 7))).1 = 1
      ∧ (parse_position 1184 864 (PosSpec.pair (Coord.float 1) (Coord.int 7))).1 = 1184
      ∧ (1 : ℤ) ≠ ((1184 : ℕ) : ℤ) :=
  claim_C8 1184 864 (-1/2) 7 (by norm_num) (by norm_num)

/-! ## Font loading
(`render_text` lines 111–124 and `render_text_multicolor` lines 244–250
of `src/effects/text_animator_v2.py`) -/

/-- A loaded font: either a file-backed face or PIL's built-in default. -/
inductive FontFace where
  | file (path : String)
  | builtinDefault
deriving DecidableEq

/-- `ImageFont.truetype(name, size)`: succeeds iff the environment can
resolve `name`; otherwise raises (modelled as `Except.error name`). -/
def truetype (env : String → Bool) (name : String) : Except String FontFace :=
  if env name then Except.ok (FontFace.file name) else Except.error name

/-- The font-loading block of `render_text`: `try truetype(font_name)`,
on failure `try truetype("arial.ttf")`, on failure
`ImageFont.load_default()`.  Total: every failure is caught. -/
def render_text_font (env : String → Bool) (name : String) : FontFace :=
  match truetype env name with
  | Except.ok f => f
  | Except.error _ =>
    match truetype env "arial.ttf" with
    | Except.ok f => f
    | Except.error _ => FontFace.builtinDefault

/-- The font-loading block of `render_text_multicolor`:
`try truetype(font_name) except: truetype("arial.ttf")` — the fallback
call itself is *not* guarded, so its exception propagates. -/
def render_text_multicolor_font (env : String → Bool) (name : String) :
    Except String FontFace :=
  match truetype env name with
  | Except.ok f => Except.ok f
  | Except.error _ => truetype env "arial.ttf"

/-- **C6** On a system where neither the requested font nor `arial.ttf`
resolves (e.g. a Linux host without `arial.ttf`), the multi-color
rasterization path raises the uncaught `truetype("arial.ttf")` error
instead of falling back, contradicting the spec's "must never abort
rasterization"; the single-color path does fall back to the default
face, and indeed always returns a font.  -/
theorem claim_C6_eval :
    render_text_multicolor_font (fun _ => false) "Nonexistent Font"
        = Except.error "arial.ttf"
      ∧ render_text_font (fun _ => false) "Nonexistent Font" = FontFace.builtinDefault
      ∧ ∀ (env : String → Bool) (name : String),
          ∃ f : FontFace, render_text_font env name = f :=
  ⟨rfl, rfl, fun _ _ => ⟨_, rfl⟩⟩

/-! ## Word wrapping
(`TextAnimator._wrap_text` in `src/effects/text_animator_v2.py`).
The pixel width `font.getbbox(line)[2] - font.getbbox(line)[0]` is an
arbitrary integer-valued function of the line. -/

/-- The loop of `_wrap_text`: `cur` is `current_line` (a list of words);
a word is appended to `cur` if the joined test line fits, otherwise the
joined `cur` (if non-empty) is emitted and the word starts a new line;
the final `cur` is emitted at the end. -/
def wrapAux (widthF : List Char → ℤ) (maxW : ℤ) :
    List (List Char) → List (List Char) → List (List Char)
  | [], cur => if cur = [] then [] else [joinWords cur]
  | w :: ws, cur =>
    if widthF (joinWords (cur ++ [w])) ≤ maxW then
      wrapAux widthF maxW ws (cur ++ [w])
    else if cur = [] then
      wrapAux widthF maxW ws [w]
    else
      joinWords cur :: wrapAux widthF maxW ws [w]

/-- `_wrap_text` from `src/effects/text_animator_v2.py`:
`words = text.split()`, the greedy loop, and
`return lines if lines else [text]`. -/
def wrap_text (widthF : List Char → ℤ) (maxW : ℤ) (text : List Char) :
    List (List Char) :=
  let lines := wrapAux widthF maxW (pySplit text) []
  if lines = [] then [text] else lines

/-- A word as produced by `str.split()`: non-empty and free of
whitespace. -/
def GoodWord (w : List Char) : Prop :=
  w ≠ [] ∧ ∀ c ∈ w, c.isWhitespace = false

theorem pySplitAux_good (l : List Char) :
    ∀ acc, (∀ c ∈ acc, c.isWhitespace = false) →
      ∀ w ∈ pySplitAux l acc, GoodWord w := by
  induction l with
  | nil =>
    intro acc hacc w hw
    unfold pySplitAux at hw
    split at hw
    · simp at hw
    · rename_i hne
      simp only [List.mem_singleton] at hw
      subst hw
      exact ⟨by simpa using hne, fun c hc => hacc c (List.mem_reverse.mp hc)⟩
  | cons c cs ih =>
    intro acc hacc w hw
    unfold pySplitAux at hw
    by_cases hc : c.isWhitespace
    · rw [if_pos hc] at hw
      split at hw
      · exact ih [] (by simp) w hw
      · rename_i hne
        rcases List.mem_cons.mp hw with hw | hw
        · subst hw
          exact ⟨by simpa using hne, fun x hx => hacc x (List.mem_reverse.mp hx)⟩
        · exact ih [] (by simp) w hw
    · rw [if_neg hc] at hw
      refine ih (c :: acc) ?_ w hw
      intro x hx
      rcases List.mem_cons.mp hx with hx | hx
      · subst hx; simpa using hc
      · exact hacc x hx

theorem pySplit_good (t : List Char) : ∀ w ∈ pySplit t, GoodWord w :=
  pySplitAux_good t [] (by simp)

theorem pySplitAux_append (w : List Char) (hw : ∀ c ∈ w, c.isWhitespace = false) :
    ∀ (l acc : List Char), pySplitAux (w ++ l) acc = pySplitAux l (w.reverse ++ acc) := by
  induction w with
  | nil => intro l acc; simp
  | cons c cs ih =>
    intro l acc
    have hc : c.isWhitespace = false := hw c (by simp)
    simp only [List.cons_append, pySplitAux, hc, Bool.false_eq_true, if_false,
      List.reverse_cons, List.append_assoc, List.singleton_append, List.nil_append]
    simpa using ih (fun x hx => hw x (by simp [hx])) l (c :: acc)

theorem pySplit_single (w : List Char) (hw : GoodWord w) : pySplit w = [w] := by
  unfold pySplit
  have := pySplitAux_append w hw.2 [] []
  rw [show w ++ ([] : List Char) = w from by simp] at this
  rw [this]
  unfold pySplitAux
  rw [if_neg (by simpa using hw.1)]
  simp

theorem pySplit_joinWords (ws : List (List Char)) (h : ∀ w ∈ ws, GoodWord w) :
    pySplit (joinWords ws) = ws := by
  induction ws with
  | nil => rfl
  | cons w ws ih =>
    cases ws with
    | nil =>
      exact pySplit_single w (h w (by simp))
    | cons w2 rest =>
      have hw : GoodWord w := h w (by simp)
      have hjoin : joinWords (w :: w2 :: rest) = w ++ ' ' :: joinWords (w2 :: rest) := rfl
      unfold pySplit
      rw [hjoin, pySplitAux_append w hw.2]
      have hsp : (' ' : Char).isWhitespace = true := by decide
      unfold pySplitAux
      rw [if_pos hsp, if_neg (by simpa using hw.1)]
      simp only [List.append_nil, List.reverse_reverse]
      have := ih (fun x hx => h x (by simp [hx]))
      unfold pySplit at this
      rw [this]

theorem wrapAux_flatten (widthF : List Char → ℤ) (maxW : ℤ) :
    ∀ (ws cur : List (List Char)),
      (∀ w ∈ ws, GoodWord w) → (∀ w ∈ cur, GoodWord w) →
      ((wrapAux widthF maxW ws cur).map pySplit).flatten = cur ++ ws := by
  intro ws
  induction ws with
  | nil =>
    intro cur _ hcur
    unfold wrapAux
    split
    · rename_i hcn; subst hcn; simp
    · simp [pySplit_joinWords cur hcur]
  | cons w ws ih =>
    intro cur hws hcur
    have hgw : GoodWord w := hws w (by simp)
    have hws' : ∀ x ∈ ws, GoodWord x := fun x hx => hws x (by simp [hx])
    have hcw : ∀ x ∈ [w], GoodWord x := by
      intro x hx
      simp only [List.mem_singleton] at hx
      subst hx
      exact hgw
    have hcurw : ∀ x ∈ cur ++ [w], GoodWord x := by
      intro x hx
      rcases List.mem_append.mp hx with hx | hx
      · exact hcur x hx
      · exact hcw x hx
    unfold wrapAux
    split_ifs with h1 h2
    · rw [ih (cur ++ [w]) hws' hcurw]
      simp
    · subst h2
      rw [ih [w] hws' hcw]
      simp
    · simp only [List.map_cons, List.flatten_cons]
      rw [pySplit_joinWords cur hcur, ih [w] hws' hcw]
      simp

/-- **C9** For every input text, width function, and positive maximum
width, word wrapping returns a non-empty list of lines whose
whitespace-split words, concatenated in order, are exactly the
whitespace-split words of the input: no word is lost, duplicated,
reordered, or split across lines. -/
theorem claim_C9 (widthF : List Char → ℤ) (maxW : ℤ) (text : List Char)
    (hpos : 0 < maxW) :
    wrap_text widthF maxW text ≠ []
      ∧ ((wrap_text widthF maxW text).map pySplit).flatten = pySplit text := by
  unfold wrap_text
  by_cases hl : wrapAux widthF maxW (pySplit text) [] = []
  · rw [hl]
    constructor
    · simp
    · have := wrapAux_flatten widthF maxW (pySplit text) [] (pySplit_good text) (by simp)
      rw [hl] at this
      simp only [List.map_nil, List.flatten_nil, List.nil_append] at this
      simp [← this]
  · rw [if_neg hl]
    refine ⟨hl, ?_⟩
    have := wrapAux_flatten widthF maxW (pySplit text) [] (pySplit_good text) (by simp)
    simpa using this

/-- **C9, witness** instantiation at text `"ab c"`, width = character
count, maximum width 3. -/
theorem claim_C9_witness :
    wrap_text (fun l => (l.length : ℤ)) 3 ['a','b',' ','c'] ≠ []
      ∧ ((wrap_text (fun l => (l.length : ℤ)) 3 ['a','b',' ','c']).map pySplit).flatten
          = pySplit ['a','b',' ','c'] :=
  claim_C9 (fun l => (l.length : ℤ)) 3 ['a','b',' ','c'] (by norm_num)

/-! ## Animation frame generation
(`generate_animation_frames` and the `_animate_*` loops of
`src/effects/text_animator_v2.py`).  A frame is modelled by its canvas
size — every branch of every loop allocates
`Image.new('RGBA', (self.width, self.height))` and pastes onto it, which
never changes the canvas size — together with which temporal phase the
frame index falls in. -/

/-- The three temporal phases of an animation loop body. -/
inductive FramePhase where
  | blank
  | animating (progress : ℚ)
  | steady
deriving DecidableEq

/-- One generated RGBA frame: its canvas dimensions and phase. -/
structure Frame where
  width : ℕ
  height : ℕ
  phase : FramePhase
deriving DecidableEq

/-- The size of the pre-rendered text image pasted onto the canvas. -/
structure ImgSize where
  w : ℕ
  h : ℕ
deriving DecidableEq

/-- The phase of frame `i`: before `start_frame` the canvas stays blank,
during the next `anim_frames` frames progress is
`(i - start_frame) / anim_frames`, afterwards the image is pasted
unmodified. -/
def framePhase (i startFrame animFrames : ℤ) : FramePhase :=
  if i < startFrame then FramePhase.blank
  else if i < startFrame + animFrames then
    FramePhase.animating (((i : ℚ) - (startFrame : ℚ)) / (animFrames : ℚ))
  else FramePhase.steady

/-- The shared shape of the four `_animate_*` loops: `anim_frames =
int(animDur * fps)`, `start_frame = int(start_time * fps)`, and one
full-frame canvas appended per `i in range(total_frames)`. -/
def animateLoop (w h fps : ℕ) (animDur : ℚ) (totalFrames : ℕ) (startTime : ℚ) :
    List Frame :=
  let animFrames := pyInt (animDur * fps)
  let startFrame := pyInt (startTime * fps)
  (List.range totalFrames).map fun (i : ℕ) =>
    { width := w, height := h, phase := framePhase (i : ℤ) startFrame animFrames }

/-- `_animate_fade` (anim window `0.8s`). -/
def TextAnimator.animate_fade (ta : TextAnimator) (_img : ImgSize)
    (totalFrames : ℕ) (startTime : ℚ) (_posX _posY : ℤ) : List Frame :=
  animateLoop ta.width ta.height ta.fps (4/5) totalFrames startTime

/-- `_animate_slide` (anim window `0.8s`; the direction only moves the
paste position inside the canvas). -/
def TextAnimator.animate_slide (ta : TextAnimator) (_img : ImgSize)
    (totalFrames : ℕ) (startTime : ℚ) (_direction : String) (_posX _posY : ℤ) :
    List Frame :=
  animateLoop ta.width ta.height ta.fps (4/5) totalFrames startTime

/-- `_animate_scale` (anim window `0.7s`). -/
def TextAnimator.animate_scale (ta : TextAnimator) (_img : ImgSize)
    (totalFrames : ℕ) (startTime : ℚ) (_posX _posY : ℤ) : List Frame :=
  animateLoop ta.width ta.height ta.fps (7/10) totalFrames startTime

/-- `_animate_pop` (anim window `0.5s`). -/
def TextAnimator.animate_pop (ta : TextAnimator) (_img : ImgSize)
    (totalFrames : ℕ) (startTime : ℚ) (_posX _posY : ℤ) : List Frame :=
  animateLoop ta.width ta.height ta.fps (1/2) totalFrames startTime

/-- Python `sub in animation.lower()`. -/
def pyContains (sub animation : String) : Bool :=
  decide (sub.toList <:+: animation.toList.map Char.toLower)

/-- `generate_animation_frames` from `src/effects/text_animator_v2.py`:
`total_frames = int(duration * self.fps)` (`range` of a negative count
is empty, hence `toNat`), then substring dispatch on the animation name,
defaulting to the fade loop. -/
def TextAnimator.generate_animation_frames (ta : TextAnimator) (img : ImgSize)
    (animation : String) (duration startTime : ℚ) (posX posY : ℤ) : List Frame :=
  let totalFrames := (pyInt (duration * ta.fps)).toNat
  if pyContains "fade" animation then
    ta.animate_fade img totalFrames startTime posX posY
  else if pyContains "slide" animation && pyContains "left" animation then
    ta.animate_slide img totalFrames startTime "left" posX posY
  else if pyContains "slide" animation && pyContains "right" animation then
    ta.animate_slide img totalFrames startTime "right" posX posY
  else if pyContains "slide" animation && pyContains "bottom" animation then
    ta.animate_slide img totalFrames startTime "bottom" posX posY
  else if pyContains "slide" animation && pyContains "top" animation then
    ta.animate_slide img totalFrames startTime "top" posX posY
  else if pyContains "scale" animation || pyContains "zoom" animation
      || pyContains "grow" animation then
    ta.animate_scale img totalFrames startTime posX posY
  else if pyContains "pop" animation || pyContains "bounce" animation then
    ta.animate_pop img totalFrames startTime posX posY
  else
    ta.animate_fade img totalFrames startTime posX posY

theorem animateLoop_length (w h fps : ℕ) (d : ℚ) (n : ℕ) (s : ℚ) :
    (animateLoop w h fps d n s).length = n := by
  simp only [animateLoop, List.length_map, List.length_range]

theorem animateLoop_size (w h fps : ℕ) (d : ℚ) (n : ℕ) (s : ℚ) :
    ∀ f ∈ animateLoop w h fps d n s, f.width = w ∧ f.height = h := by
  intro f hf
  simp only [animateLoop, List.mem_map, List.mem_range] at hf
  obtain ⟨i, _, rfl⟩ := hf
  exact ⟨rfl, rfl⟩

/-- **C3, counterexample** At scene duration `0.99s` and 30 fps the
Animator produces `int(0.99 * 30) = 29` frames, not
`round(0.99 * 30) = 30`: the frame count truncates, it does not round. -/
theorem claim_C3_cex :
    (TextAnimator.generate_animation_frames ⟨1184, 864, 30⟩ ⟨100, 50⟩
        "fade_in" (99/100) 0 0 0).length = 29
      ∧ ((TextAnimator.generate_animation_frames ⟨1184, 864, 30⟩ ⟨100, 50⟩
          "fade_in" (99/100) 0 0 0).length : ℤ) ≠ round ((99/100 : ℚ) * 30) := by
  have hfade : pyContains "fade" "fade_in" = true := by decide
  have hlen : (TextAnimator.generate_animation_frames ⟨1184, 864, 30⟩ ⟨100, 50⟩
      "fade_in" (99/100) 0 0 0).length = 29 := by
    unfold TextAnimator.generate_animation_frames
    rw [if_pos hfade]
    unfold TextAnimator.animate_fade
    rw [animateLoop_length]
    have hq : ((99:ℚ)/100) * ((30:ℕ):ℚ) = 297/10 := by norm_num
    have hfloor : ⌊(297/10 : ℚ)⌋ = 29 :=
      Int.floor_eq_iff.mpr (by constructor <;> norm_num)
    have hpy : pyInt ((99:ℚ)/100 * ((30:ℕ):ℚ)) = 29 := by
      unfold pyInt
      rw [if_neg (by norm_num), hq, hfloor]
    rw [hpy]
    rfl
  refine ⟨hlen, ?_⟩
  rw [hlen]
  have hround : round ((99/100 : ℚ) * 30) = 30 := by
    rw [round_eq]
    have h302 : (99/100 : ℚ) * 30 + 1/2 = 151/5 := by norm_num
    rw [h302]
    exact Int.floor_eq_iff.mpr (by constructor <;> norm_num)
  rw [hround]
  decide

/-- **C3, amended** For every animator state, text image, animation
name, duration and start time, the generated frame list has exactly
`int(duration * fps)` frames (Python truncation toward zero; `range` of
a negative count is empty) — not `round(duration * fps)` — and every
frame's canvas is exactly the configured frame width and height,
regardless of the overlay image's own size. -/
theorem claim_C3_amended (ta : TextAnimator) (img : ImgSize) (animation : String)
    (duration startTime : ℚ) (posX posY : ℤ) :
    (ta.generate_animation_frames img animation duration startTime posX posY).length
        = (pyInt (duration * ta.fps)).toNat
      ∧ ∀ f ∈ ta.generate_animation_frames img animation duration startTime posX posY,
          f.width = ta.width ∧ f.height = ta.height := by
  unfold TextAnimator.generate_animation_frames
  unfold TextAnimator.animate_fade TextAnimator.animate_slide
    TextAnimator.animate_scale TextAnimator.animate_pop
  split_ifs <;>
    exact ⟨animateLoop_length _ _ _ _ _ _, animateLoop_size _ _ _ _ _ _⟩

/-! ## Timeline resolution
(`VideoComposer._apply_transitions` in `src/core/video_composer.py`).
Scene clips are placed sequentially at `current_time`; a scene carrying
a `transition` entry computes
`trans_duration = min(requested, clip.duration * 0.5)` — against its
*own* (incoming) clip duration — and only the recognized types
`fade`/`crossfade`/`slide`/`slideIn` shift the clip back by that amount
(the loop has no branch for other validated types such as `zoom`). -/

/-- A scene's `transition` dict: its `type` and optional `duration`
(default 1.0 when missing). -/
structure TransCfg where
  ttype : String
  tdur : Option ℚ
deriving DecidableEq

/-- What `_apply_transitions` reads from one scene: the built clip's
duration and the optional transition config. -/
structure SceneCfg where
  duration : ℚ
  transition : Option TransCfg
deriving DecidableEq

/-- One timeline entry: the clip's resolved start, its duration, and the
transition duration computed for it (if it carried a transition). -/
structure Entry where
  start : ℚ
  duration : ℚ
  transDur : Option ℚ
deriving DecidableEq

/-- The transition types with an overlap branch in the loop
(`['fade', 'crossfade']` and `['slide', 'slideIn']`). -/
def overlapTypes : List String := ["fade", "crossfade", "slide", "slideIn"]

/-- `trans_duration = min(trans_config.get('duration', 1.0),
clip.duration * 0.5)`, computed for any scene with a transition. -/
def resolvedTransDur (c : SceneCfg) : Option ℚ :=
  match c.transition with
  | some tr => some (min (tr.tdur.getD 1) (c.duration * (1/2)))
  | none => none

/-- How far the clip is shifted back: the resolved transition duration
for the recognized overlap types, zero otherwise. -/
def entryShift (c : SceneCfg) : ℚ :=
  match c.transition with
  | some tr =>
    if tr.ttype ∈ overlapTypes then min (tr.tdur.getD 1) (c.duration * (1/2)) else 0
  | none => 0

/-- The loop of `_apply_transitions` over the scenes after the first
(`i > 0`, so the transition branch is live), carrying `current_time`. -/
def tlRest : List SceneCfg → ℚ → List Entry
  | [], _ => []
  | c :: rest, t =>
    { start := t - entryShift c, duration := c.duration,
      transDur := resolvedTransDur c }
      :: tlRest rest (t - entryShift c + c.duration)

/-- `_apply_transitions`: the first scene starts at `current_time = 0`
and its transition branch is dead (`i > 0` fails); the rest follow. -/
def apply_transitions : List SceneCfg → List Entry
  | [] => []
  | c :: rest =>
    { start := 0, duration := c.duration, transDur := none } :: tlRest rest c.duration

/-- The timeline entry at index `i` (defaulting to a zero entry). -/
def entryAt (es : List Entry) (i : ℕ) : Entry := es.getD i ⟨0, 0, none⟩

/-- The scene at index `i` (defaulting to a zero scene). -/
def sceneAt (l : List SceneCfg) (i : ℕ) : SceneCfg := l.getD i ⟨0, none⟩

/-- The end time of the last timeline entry (`t` if there is none). -/
def lastEndFrom (es : List Entry) (t : ℚ) : ℚ :=
  match es.getLast? with
  | none => t
  | some e => e.start + e.duration

/-- The duration of `CompositeVideoClip`: the maximum clip end time. -/
def maxEnd (es : List Entry) : ℚ :=
  es.foldr (fun e m => max (e.start + e.duration) m) 0

/-- **C2, counterexample** Scenes of durations `1, 10, 5`; scene 2
carries a fade transition requesting `2.0s`, scene 3 a zoom transition
requesting `1.0s`.  The resolved fade duration is `min(2, 10*0.5) = 2`,
which violates the claimed clamp `d ≤ 0.5 * min(1, 10) = 0.5` (the code
clamps only against the incoming clip), and scene 2 is placed at
`0 + 1 - 2 = -1`.  The zoom transition produces no overlap at all:
scene 3 starts at `-1 + 10 = 9`, not at `-1 + 10 - 1 = 8`. -/
theorem claim_C2_cex :
    apply_transitions
        [⟨1, none⟩, ⟨10, some ⟨"fade", some 2⟩⟩, ⟨5, some ⟨"zoom", some 1⟩⟩]
      = [⟨0, 1, none⟩, ⟨-1, 10, some 2⟩, ⟨9, 5, some 1⟩]
      ∧ ¬((2:ℚ) ≤ (1/2) * min 1 10)
      ∧ ((9:ℚ) ≠ -1 + 10 - 1) := by
  have hf : "fade" ∈ overlapTypes := by decide
  have hz : "zoom" ∉ overlapTypes := by decide
  refine ⟨?_, by norm_num, by norm_num⟩
  norm_num [apply_transitions, tlRest, entryShift, resolvedTransDur, hf, hz, min_def]

theorem tlRest_length (scenes : List SceneCfg) : ∀ t, (tlRest scenes t).length = scenes.length := by
  induction scenes with
  | nil => intro t; rfl
  | cons c rest ih => intro t; simp [tlRest, ih]

theorem apply_transitions_length (scenes : List SceneCfg) :
    (apply_transitions scenes).length = scenes.length := by
  cases scenes with
  | nil => rfl
  | cons c rest => simp [apply_transitions, tlRest_length]

theorem tlRest_transDur (scenes : List SceneCfg) :
    ∀ (t : ℚ) (i : ℕ), i < scenes.length →
      (entryAt (tlRest scenes t) i).transDur = resolvedTransDur (sceneAt scenes i) := by
  induction scenes with
  | nil => intro t i hi; simp at hi
  | cons c rest ih =>
    intro t i hi
    cases i with
    | zero => simp [tlRest, entryAt, sceneAt]
    | succ j =>
      have hj : j < rest.length := by simpa using hi
      simpa [tlRest, entryAt, sceneAt] using ih _ j hj

theorem tlRest_adj (scenes : List SceneCfg) :
    ∀ (t : ℚ) (i : ℕ), i + 1 < scenes.length →
      (entryAt (tlRest scenes t) (i+1)).start
        = (entryAt (tlRest scenes t) i).start + (entryAt (tlRest scenes t) i).duration
            - entryShift (sceneAt scenes (i+1)) := by
  induction scenes with
  | nil => intro t i hi; simp at hi
  | cons c rest ih =>
    intro t i hi
    cases i with
    | zero =>
      cases rest with
      | nil => simp at hi
      | cons c2 rest2 =>
        simp only [tlRest, entryAt, sceneAt, List.getD_cons_succ, List.getD_cons_zero]
    | succ j =>
      have hj : j + 1 < rest.length := by simpa using hi
      simpa [tlRest, entryAt, sceneAt] using ih _ j hj

theorem apply_transitions_adj (scenes : List SceneCfg) (i : ℕ)
    (hi : i + 1 < scenes.length) :
    (entryAt (apply_transitions scenes) (i+1)).start
      = (entryAt (apply_transitions scenes) i).start
          + (entryAt (apply_transitions scenes) i).duration
          - entryShift (sceneAt scenes (i+1)) := by
  cases scenes with
  | nil => simp at hi
  | cons c rest =>
    cases i with
    | zero =>
      cases rest with
      | nil => simp at hi
      | cons c2 rest2 =>
        simp only [apply_transitions, tlRest, entryAt, sceneAt,
          List.getD_cons_succ, List.getD_cons_zero]
        ring
    | succ j =>
      have hj : j + 1 < rest.length := by simpa using hi
      simpa [apply_transitions, entryAt, sceneAt] using tlRest_adj rest c.duration j hj

theorem apply_transitions_transDur (scenes : List SceneCfg) (i : ℕ)
    (hi : i + 1 < scenes.length) :
    (entryAt (apply_transitions scenes) (i+1)).transDur
      = resolvedTransDur (sceneAt scenes (i+1)) := by
  cases scenes with
  | nil => simp at hi
  | cons c rest =>
    have hj : i < rest.length := by simpa using hi
    simpa [apply_transitions, entryAt, sceneAt] using tlRest_transDur rest c.duration i hj

theorem lastEndFrom_cons (e : Entry) (es : List Entry) (t : ℚ) :
    lastEndFrom (e :: es) t = lastEndFrom es (e.start + e.duration) := by
  cases es with
  | nil => rfl
  | cons f fs =>
    unfold lastEndFrom
    rw [List.getLast?_cons_cons]
    cases h : (f :: fs).getLast? with
    | none => exact absurd h (by simp)
    | some g => rfl

theorem entryShift_le (c : SceneCfg) (hd : 0 < c.duration) :
    entryShift c ≤ c.duration * (1/2) := by
  unfold entryShift
  split
  · split
    · exact min_le_right _ _
    · positivity
  · positivity

theorem tlRest_lastEnd_ge (scenes : List SceneCfg) :
    ∀ t, (∀ c ∈ scenes, 0 < c.duration) → t ≤ lastEndFrom (tlRest scenes t) t := by
  induction scenes with
  | nil => intro t _; exact le_refl t
  | cons c rest ih =>
    intro t hpos
    have hc : 0 < c.duration := hpos c (by simp)
    have hsh := entryShift_le c hc
    rw [show tlRest (c :: rest) t
        = { start := t - entryShift c, duration := c.duration,
            transDur := resolvedTransDur c }
          :: tlRest rest (t - entryShift c + c.duration) from rfl,
      lastEndFrom_cons]
    have ht1 : t ≤ t - entryShift c + c.duration := by
      linarith
    calc t ≤ t - entryShift c + c.duration := ht1
      _ ≤ _ := by
        have := ih (t - entryShift c + c.duration) (fun x hx => hpos x (by simp [hx]))
        simpa using this

theorem tlRest_ends_le (scenes : List SceneCfg) :
    ∀ t, (∀ c ∈ scenes, 0 < c.duration) →
      ∀ e ∈ tlRest scenes t, e.start + e.duration ≤ lastEndFrom (tlRest scenes t) t := by
  induction scenes with
  | nil => intro t _ e he; simp [tlRest] at he
  | cons c rest ih =>
    intro t hpos e he
    have hc : 0 < c.duration := hpos c (by simp)
    rw [show tlRest (c :: rest) t
        = { start := t - entryShift c, duration := c.duration,
            transDur := resolvedTransDur c }
          :: tlRest rest (t - entryShift c + c.duration) from rfl] at he ⊢
    rw [lastEndFrom_cons]
    have hpos' : ∀ x ∈ rest, 0 < x.duration := fun x hx => hpos x (by simp [hx])
    rcases List.mem_cons.mp he with he | he
    · subst he
      simpa using tlRest_lastEnd_ge rest (t - entryShift c + c.duration) hpos'
    · simpa using ih (t - entryShift c + c.duration) hpos' e he

theorem maxEnd_le (es : List Entry) (M : ℚ) (h0 : 0 ≤ M)
    (h : ∀ e ∈ es, e.start + e.duration ≤ M) : maxEnd es ≤ M := by
  induction es with
  | nil => exact h0
  | cons e es ih =>
    simp only [maxEnd, List.foldr_cons]
    exact max_le (h e (by simp)) (ih (fun f hf => h f (by simp [hf])))

theorem le_maxEnd (es : List Entry) (e : Entry) (he : e ∈ es) :
    e.start + e.duration ≤ maxEnd es := by
  induction es with
  | nil => simp at he
  | cons f fs ih =>
    simp only [maxEnd, List.foldr_cons]
    rcases List.mem_cons.mp he with he | he
    · subst he; exact le_max_left _ _
    · exact le_trans (ih he) (le_max_right _ _)

theorem lastEndFrom_mem (es : List Entry) (t : ℚ) (hne : es ≠ []) :
    ∃ e ∈ es, lastEndFrom es t = e.start + e.duration := by
  induction es generalizing t with
  | nil => exact absurd rfl hne
  | cons e es ih =>
    cases es with
    | nil => exact ⟨e, by simp, rfl⟩
    | cons f fs =>
      rw [lastEndFrom_cons]
      obtain ⟨g, hg, hge⟩ := ih (e.start + e.duration) (by simp)
      exact ⟨g, by simp [hg], hge⟩

theorem apply_transitions_total (scenes : List SceneCfg)
    (hpos : ∀ c ∈ scenes, 0 < c.duration) :
    maxEnd (apply_transitions scenes) = lastEndFrom (apply_transitions scenes) 0 := by
  cases scenes with
  | nil => rfl
  | cons c rest =>
    have hc : 0 < c.duration := hpos c (by simp)
    have hpos' : ∀ x ∈ rest, 0 < x.duration := fun x hx => hpos x (by simp [hx])
    set es := apply_transitions (c :: rest) with hes
    have hsplit : es
        = { start := 0, duration := c.duration, transDur := none }
          :: tlRest rest c.duration := rfl
    have hL : lastEndFrom es 0 = lastEndFrom (tlRest rest c.duration) c.duration := by
      rw [hsplit, lastEndFrom_cons]
      norm_num
    have hge : c.duration ≤ lastEndFrom es 0 := by
      rw [hL]
      exact tlRest_lastEnd_ge rest c.duration hpos'
    have h0 : (0:ℚ) ≤ lastEndFrom es 0 := le_trans hc.le hge
    apply le_antisymm
    · apply maxEnd_le es (lastEndFrom es 0) h0
      intro e he
      rw [hsplit] at he
      rcases List.mem_cons.mp he with he | he
      · subst he
        simpa using hge
      · rw [hL]
        exact tlRest_ends_le rest c.duration hpos' e he
    · obtain ⟨e, hmem, heq⟩ := lastEndFrom_mem es 0 (by rw [hsplit]; simp)
      rw [heq]
      exact le_maxEnd es e hmem

/-- **C2, amended** The resolved timeline has one entry per scene.  For
a scene `i+1` carrying a transition with requested duration `r`, the
recorded transition duration is `d = min(r, 0.5 * duration_{i+1})` —
clamped only against the *incoming* scene's duration, not against
`min(duration_i, duration_{i+1})` — and `d ≤ 0.5 * duration_{i+1}`.
For the recognized types (fade, crossfade, slide, slideIn) the scene
starts at `start_i + duration_i - d`; for any other type (e.g. `zoom`)
no overlap is applied and it starts at `start_i + duration_i`.  With all
scene durations positive, the composite's total duration (the maximum
entry end) equals the last entry's end time. -/
theorem claim_C2_amended (scenes : List SceneCfg) :
    (apply_transitions scenes).length = scenes.length
      ∧ (∀ (i : ℕ) (tr : TransCfg), i + 1 < scenes.length →
          (sceneAt scenes (i+1)).transition = some tr →
          (entryAt (apply_transitions scenes) (i+1)).transDur
              = some (min (tr.tdur.getD 1) ((sceneAt scenes (i+1)).duration * (1/2)))
            ∧ min (tr.tdur.getD 1) ((sceneAt scenes (i+1)).duration * (1/2))
                ≤ (sceneAt scenes (i+1)).duration * (1/2)
            ∧ (tr.ttype ∈ overlapTypes →
                (entryAt (apply_transitions scenes) (i+1)).start
                  = (entryAt (apply_transitions scenes) i).start
                      + (entryAt (apply_transitions scenes) i).duration
                      - min (tr.tdur.getD 1) ((sceneAt scenes (i+1)).duration * (1/2)))
            ∧ (tr.ttype ∉ overlapTypes →
                (entryAt (apply_transitions scenes) (i+1)).start
                  = (entryAt (apply_transitions scenes) i).start
                      + (entryAt (apply_transitions scenes) i).duration))
      ∧ ((∀ c ∈ scenes, 0 < c.duration) →
          maxEnd (apply_transitions scenes) = lastEndFrom (apply_transitions scenes) 0) := by
  refine ⟨apply_transitions_length scenes, ?_, apply_transitions_total scenes⟩
  intro i tr hi htr
  have hadj := apply_transitions_adj scenes i hi
  have htd := apply_transitions_transDur scenes i hi
  have hshift : entryShift (sceneAt scenes (i+1))
      = if tr.ttype ∈ overlapTypes then
          min (tr.tdur.getD 1) ((sceneAt scenes (i+1)).duration * (1/2))
        else 0 := by
    unfold entryShift
    rw [htr]
  have hres : resolvedTransDur (sceneAt scenes (i+1))
      = some (min (tr.tdur.getD 1) ((sceneAt scenes (i+1)).duration * (1/2))) := by
    unfold resolvedTransDur
    rw [htr]
  refine ⟨by rw [htd, hres], min_le_right _ _, ?_, ?_⟩
  · intro hin
    rw [hadj, hshift, if_pos hin]
  · intro hout
    rw [hadj, hshift, if_neg hout]
    ring

/-! ## Audio attachment
(`VideoComposer._add_audio` in `src/core/video_composer.py`). -/

/-- What `_add_audio` does to the audio track: the resulting audio
duration, whether the trim branch ran, whether the loop branch ran (and
`loops_needed = int(video/audio) + 1`), and whether the 1.5s
`audio_fadeout` was applied. -/
structure AudioResult where
  finalDur : ℚ
  trimmed : Bool
  looped : Bool
  loops : Option ℤ
  fadedOut : Bool
deriving DecidableEq

/-- The length-handling branch of `_add_audio`:
`if audio.duration > video_duration:` trim + fadeout;
`elif audio.duration < video_duration:` loop + trim-to-length + fadeout;
otherwise the audio is used as-is. -/
def handle_audio_length (audioDur videoDur : ℚ) : AudioResult :=
  if videoDur < audioDur then
    { finalDur := videoDur, trimmed := true, looped := false,
      loops := none, fadedOut := true }
  else if audioDur < videoDur then
    { finalDur := videoDur, trimmed := false, looped := true,
      loops := some (pyInt (videoDur / audioDur) + 1), fadedOut := true }
  else
    { finalDur := audioDur, trimmed := false, looped := false,
      loops := none, fadedOut := false }

/-- The result of `_add_audio` as a whole: if the audio file does not
exist the composer warns and returns the video *unchanged* (skip);
otherwise the length handling above runs and the audio is attached. -/
inductive AudioOutcome where
  | skipped
  | attached (r : AudioResult)
deriving DecidableEq

/-- `_add_audio` from `src/core/video_composer.py`. -/
def add_audio (fs : String → Bool) (audioPath : String) (audioDur videoDur : ℚ) :
    AudioOutcome :=
  if fs audioPath = false then AudioOutcome.skipped
  else AudioOutcome.attached (handle_audio_length audioDur videoDur)

/-- **C10** When the audio duration exactly equals the video duration,
the audio is attached unmodified: no trim, no loop, and no 1.5s
fade-out.  The fade-out runs exactly when the durations differ, the trim
branch exactly when the audio is strictly longer, and the loop branch
exactly when it is strictly shorter. -/
theorem claim_C10 (a v : ℚ) :
    (a = v →
        handle_audio_length a v
          = { finalDur := a, trimmed := false, looped := false,
              loops := none, fadedOut := false })
      ∧ ((handle_audio_length a v).fadedOut = true ↔ a ≠ v)
      ∧ ((handle_audio_length a v).trimmed = true ↔ v < a)
      ∧ ((handle_audio_length a v).looped = true ↔ a < v) := by
  unfold handle_audio_length
  split_ifs with h1 h2
  · refine ⟨fun hav => absurd h1 (by rw [hav]; exact lt_irrefl v), ?_, ?_, ?_⟩
    · simp [ne_of_gt h1]
    · simp [h1]
    · simp [lt_asymm h1]
  · refine ⟨fun hav => absurd h2 (by rw [hav]; exact lt_irrefl v), ?_, ?_, ?_⟩
    · simp [ne_of_lt h2]
    · simp [h1]
    · simp [h2]
  · have hav : a = v := le_antisymm (not_lt.mp h1) (not_lt.mp h2)
    exact ⟨fun _ => rfl, by simp [hav], by simp [h1], by simp [h2]⟩

/-! ## Configuration validation
(`ConfigLoader._validate` / `_validate_scenes` in
`src/core/config_loader.py`; `load` raises `ValueError` iff `errors` is
non-empty, while `warnings` are only printed). -/

/-- The per-scene fields `_validate_scenes` checks for C7: the scene's
`image_path`. -/
structure SceneV where
  image_path : Option String
deriving DecidableEq

/-- The configuration fields `_validate` reads: the optional
`audio_path`, the optional required `scenes` list, and the merged
dimension/fps values. -/
structure ConfigV where
  audio_path : Option String
  scenes : Option (List SceneV)
  width : ℤ
  height : ℤ
  fps : ℤ
deriving DecidableEq

/-- `_validate_scenes`: an empty list is an error; a missing or
non-existent `image_path` is an error per scene. -/
def validate_scene_errors (fs : String → Bool) (scenes : List SceneV) : List String :=
  if scenes = [] then ["At least one scene is required"]
  else
    (scenes.map fun s =>
      match s.image_path with
      | none => ["Missing image_path"]
      | some p => if fs p then [] else ["Image not found: " ++ p]).flatten

/-- `_validate`: the accumulated `(errors, warnings)`.  A missing
`scenes` field and dimension/fps violations are errors; a missing audio
file is appended to `warnings` only. -/
def validate (fs : String → Bool) (c : ConfigV) : List String × List String :=
  let scene_errors :=
    match c.scenes with
    | none => ["Required field scenes is missing"]
    | some ss => validate_scene_errors fs ss
  let dim_errors :=
    (if c.width ≤ 0 ∨ c.height ≤ 0 then ["Video dimensions must be positive"] else [])
      ++ (if c.fps ≤ 0 then ["FPS must be positive"] else [])
  let audio_warnings :=
    match c.audio_path with
    | none => []
    | some p => if fs p then [] else ["Audio file not found: " ++ p]
  (scene_errors ++ dim_errors, audio_warnings)

/-- `load` aborts (raises `ValueError`) iff validation produced errors. -/
def load_aborts (fs : String → Bool) (c : ConfigV) : Bool :=
  !(validate fs c).1.isEmpty

/-- **C7, counterexample** A config whose scene image exists but whose
audio file does not: validation produces *no* error, only the warning
`Audio file not found`, `load` does not abort, rendering proceeds, and
`_add_audio` skips the missing audio instead of failing. -/
theorem claim_C7_cex :
    validate (fun p => p == "bg.png")
        ⟨some "music.mp3", some [⟨some "bg.png"⟩], 1184, 864, 30⟩
      = ([], ["Audio file not found: music.mp3"])
      ∧ load_aborts (fun p => p == "bg.png")
          ⟨some "music.mp3", some [⟨some "bg.png"⟩], 1184, 864, 30⟩ = false
      ∧ add_audio (fun p => p == "bg.png") "music.mp3" (7/2) 10 = AudioOutcome.skipped := by
  refine ⟨?_, ?_, ?_⟩ <;> rfl

/-- **C7, amended** A configured audio file that does not exist on disk
at validation time produces a *warning*, never an error: the error list
is the same as if no audio were configured, so the render is not
aborted, and `_add_audio` then continues without audio.  A missing
scene background image, in contrast, is a hard validation error. -/
theorem claim_C7_amended :
    (∀ (fs : String → Bool) (c : ConfigV) (p : String),
        c.audio_path = some p → fs p = false →
          ("Audio file not found: " ++ p) ∈ (validate fs c).2
            ∧ (validate fs c).1 = (validate fs { c with audio_path := none }).1)
      ∧ (∀ (fs : String → Bool) (p : String) (a v : ℚ),
          fs p = false → add_audio fs p a v = AudioOutcome.skipped)
      ∧ (∀ (fs : String → Bool) (c : ConfigV) (ss : List SceneV) (s : SceneV)
            (ip : String),
          c.scenes = some ss → s ∈ ss → s.image_path = some ip → fs ip = false →
            (validate fs c).1 ≠ []) := by
  refine ⟨?_, ?_, ?_⟩
  · intro fs c p hap hfs
    constructor
    · simp [validate, hap, hfs]
    · rfl
  · intro fs p a v hfs
    simp [add_audio, hfs]
  · intro fs c ss s ip hss hmem hip hfs
    have hmem2 : ("Image not found: " ++ ip) ∈ validate_scene_errors fs ss := by
      unfold validate_scene_errors
      rw [if_neg (List.ne_nil_of_mem hmem)]
      rw [List.mem_flatten]
      refine ⟨["Image not found: " ++ ip], ?_, by simp⟩
      rw [List.mem_map]
      exact ⟨s, hmem, by simp [hip, hfs]⟩
    have : ("Image not found: " ++ ip) ∈ (validate fs c).1 := by
      simp only [validate, hss]
      exact List.mem_append_left _ hmem2
    exact List.ne_nil_of_mem this

end VideoCreation
